import Mathlib

/-!
Shallow embedding of the threshold-selection and risk-routing core of
`examples/accuracy_threshold_script.py`.

Numbers are embedded as exact rationals (`ℚ`): Python floats are modelled by
exact arithmetic, `np.round(x, 2)` by round-half-to-even on rationals, and the
confusion-matrix counts by `ℕ` counts over zipped lists.  Vectorized numpy
mask operations are modelled element-wise.
-/

namespace ThresholdLoop

/-- The routing labels written into the `route` column by `route_with_t1_t2`. -/
inductive Route
  | low_risk
  | review
  | high_risk
  deriving DecidableEq, Repr

/-- One row of the sweep table: the dict returned by `metrics_at_threshold`. -/
structure Row where
  t : ℚ
  tp : ℕ
  fp : ℕ
  tn : ℕ
  fn : ℕ
  precision : ℚ
  «recall» : ℚ
  fpr : ℚ
  fnr : ℚ
  f1 : ℚ
  deriving DecidableEq, Repr

/-- Count `tp = ((y_pred == 1) & (y_true == 1)).sum()` where `y_pred = (y_score >= t)`:
count of aligned (score, label) pairs with `score >= t` and a positive label. -/
def tpCount (y_true : List Bool) (y_score : List ℚ) (t : ℚ) : ℕ :=
  (y_score.zip y_true).countP (fun p => decide (t ≤ p.1) && p.2)

/-- Count `fp = ((y_pred == 1) & (y_true == 0)).sum()`. -/
def fpCount (y_true : List Bool) (y_score : List ℚ) (t : ℚ) : ℕ :=
  (y_score.zip y_true).countP (fun p => decide (t ≤ p.1) && !p.2)

/-- Count `tn = ((y_pred == 0) & (y_true == 0)).sum()`. -/
def tnCount (y_true : List Bool) (y_score : List ℚ) (t : ℚ) : ℕ :=
  (y_score.zip y_true).countP (fun p => !decide (t ≤ p.1) && !p.2)

/-- Count `fn = ((y_pred == 0) & (y_true == 1)).sum()`. -/
def fnCount (y_true : List Bool) (y_score : List ℚ) (t : ℚ) : ℕ :=
  (y_score.zip y_true).countP (fun p => !decide (t ≤ p.1) && p.2)

/-- Embedding of `metrics_at_threshold(y_true, y_score, t)`: confusion counts at threshold
`t` (predicted positive iff `score >= t`) and the derived ratios, with the
source's zero-denominator convention `x / 0 := 0.0`. -/
def metrics_at_threshold (y_true : List Bool) (y_score : List ℚ) (t : ℚ) : Row :=
  let tp := tpCount y_true y_score t
  let fp := fpCount y_true y_score t
  let tn := tnCount y_true y_score t
  let fn := fnCount y_true y_score t
  let precision : ℚ := if tp + fp = 0 then 0 else (tp : ℚ) / ((tp : ℚ) + (fp : ℚ))
  let «recall» : ℚ := if tp + fn = 0 then 0 else (tp : ℚ) / ((tp : ℚ) + (fn : ℚ))
  let fnr : ℚ := if tp + fn = 0 then 0 else (fn : ℚ) / ((tp : ℚ) + (fn : ℚ))
  let fpr : ℚ := if fp + tn = 0 then 0 else (fp : ℚ) / ((fp : ℚ) + (tn : ℚ))
  let f1 : ℚ := if precision + «recall» = 0 then 0
    else 2 * precision * «recall» / (precision + «recall»)
  { t := t, tp := tp, fp := fp, tn := tn, fn := fn,
    precision := precision, «recall» := «recall», fpr := fpr, fnr := fnr, f1 := f1 }

/-- Round half to even, the rounding mode of `np.round` (on exact rationals). -/
def roundHalfEven (q : ℚ) : ℤ :=
  if q - (⌊q⌋ : ℚ) < 1 / 2 then ⌊q⌋
  else if (1 : ℚ) / 2 < q - (⌊q⌋ : ℚ) then ⌊q⌋ + 1
  else if ⌊q⌋ % 2 = 0 then ⌊q⌋ else ⌊q⌋ + 1

/-- Embedding of `np.round(q, 2)`: round to two decimal places (always two, independent of
the sweep's step size). -/
def round2 (q : ℚ) : ℚ :=
  (roundHalfEven (q * 100) : ℚ) / 100

/-- Number of elements of `np.arange(step, 1.0, step)` in exact arithmetic:
`ceil((1.0 - step) / step)` clamped at zero. -/
def gridSize (step : ℚ) : ℕ :=
  (⌈(1 - step) / step⌉).toNat

/-- Embedding of `np.arange(step, 1.0, step)` in exact arithmetic: the multiples
`step, 2*step, ...` that are strictly below `1.0`. -/
def gridRaw (step : ℚ) : List ℚ :=
  (List.range (gridSize step)).map (fun (k : ℕ) => ((k : ℚ) + 1) * step)

/-- The grid `thresholds = np.round(np.arange(step, 1.0, step), 2)`. -/
def thresholds (step : ℚ) : List ℚ :=
  (gridRaw step).map round2

/-- Embedding of `threshold_sweep(y_true, y_score, step)`: one metrics row per grid point,
in grid order. -/
def threshold_sweep (y_true : List Bool) (y_score : List ℚ) (step : ℚ) : List Row :=
  (thresholds step).map (metrics_at_threshold y_true y_score)

/-- The sort key of `df.sort_values(["fnr", "t"])`: lexicographic on
(fnr, t), both ascending. -/
def lexLe (a b : Row) : Bool :=
  decide (a.fnr < b.fnr) || (decide (a.fnr = b.fnr) && decide (a.t ≤ b.t))

/-- The candidate rows `df` inspected by `pick_threshold` after the optional
precision filter: `df[df["precision"] >= precision_floor]`, falling back to the
full sweep when that selection is empty (or when no floor is given). -/
def candidates (sweep_df : List Row) (precision_floor : Option ℚ) : List Row :=
  match precision_floor with
  | none => sweep_df
  | some pf =>
    let df := sweep_df.filter (fun r => decide (pf ≤ r.precision))
    if df.isEmpty then sweep_df else df

/-- Failure modes of the selector.  `indexOutOfBounds` is the pandas
`IndexError` that `.iloc[0]` raises on an empty frame; `invalidInput` models
the `InvalidInput` error with a descriptive message that the specification
prescribes (no such error exists in the source). -/
inductive PickErr
  | indexOutOfBounds
  | invalidInput (msg : String)
  deriving DecidableEq, Repr

/-- The row that `df.sort_values(["fnr", "t"]).iloc[0]` selects: a row whose
(fnr, t) key is lexicographically least.  All (fnr, t)-minimal rows share the
same `t` (the key contains `t`), so which of them the pandas quicksort places
first does not affect the threshold `pick_threshold` returns;  computed here
by a running minimum. -/
def bestRow : List Row → Option Row
  | [] => none
  | r :: rs =>
    match bestRow rs with
    | none => some r
    | some b => if lexLe r b then some r else some b

/-- Embedding of `pick_threshold(sweep_df, precision_floor)`: filter by the precision floor
(falling back to the full sweep when the filtered frame is empty), sort by
`["fnr", "t"]`, take row 0 and return its `t`.  `.iloc[0]` on an empty frame
raises a positional `IndexError`; this is the `.error .indexOutOfBounds`
branch. -/
def pick_threshold (sweep_df : List Row) (precision_floor : Option ℚ) :
    Except PickErr ℚ :=
  match bestRow (candidates sweep_df precision_floor) with
  | none => .error .indexOutOfBounds
  | some best => .ok best.t

/-- Embedding of `make_t1_t2(t, band)`: `t1 = max(0.0, t - band)`, `t2 = min(1.0, t + band)`. -/
def make_t1_t2 (t : ℚ) (band : ℚ) : ℚ × ℚ :=
  (max 0 (t - band), min 1 (t + band))

/-- Embedding of `route_with_t1_t2` at one score: the three mask assignments
`route[y_score < t1] = low_risk`, `route[(y_score >= t1) & (y_score < t2)] =
review`, `route[y_score >= t2] = high_risk` applied in source order to an
initially unset cell, later assignments overwriting earlier ones. -/
def route_with_t1_t2 (s t1 t2 : ℚ) : Option Route :=
  let r : Option Route := none
  let r := if s < t1 then some .low_risk else r
  let r := if t1 ≤ s ∧ s < t2 then some .review else r
  let r := if t2 ≤ s then some .high_risk else r
  r

/-- A sweep-table row used as a test fixture: only the fields that
`pick_threshold` reads (`t`, `fnr`, `precision`) carry data. -/
def mkRow (t fnr precision : ℚ) : Row :=
  { t := t, tp := 0, fp := 0, tn := 0, fn := 0,
    precision := precision, «recall» := 0, fpr := 0, fnr := fnr, f1 := 0 }

section RouteFacts

/-- Unfolding of the three mask assignments into a single conditional. -/
theorem route_with_t1_t2_eq (s t1 t2 : ℚ) :
    route_with_t1_t2 s t1 t2 =
      if t2 ≤ s then some Route.high_risk
      else if t1 ≤ s ∧ s < t2 then some Route.review
      else if s < t1 then some Route.low_risk
      else none := rfl

end RouteFacts

/-- Claim C4 (amended): for `t1 ≤ t2` the router is total and the three route
predicates characterize it (`low_risk` iff `score < t1`, `review` iff
`t1 ≤ score < t2`, `high_risk` iff `score ≥ t2`); a score equal to `t2` routes
to `high_risk`, and a score equal to `t1` routes to `review` provided
`t1 < t2` (when `t1 = t2` the high-risk mask overwrites the review mask). -/
theorem route_partition (s t1 t2 : ℚ) (h : t1 ≤ t2) :
    (∃ r, route_with_t1_t2 s t1 t2 = some r) ∧
    (route_with_t1_t2 s t1 t2 = some Route.low_risk ↔ s < t1) ∧
    (route_with_t1_t2 s t1 t2 = some Route.review ↔ t1 ≤ s ∧ s < t2) ∧
    (route_with_t1_t2 s t1 t2 = some Route.high_risk ↔ t2 ≤ s) ∧
    (s = t2 → route_with_t1_t2 s t1 t2 = some Route.high_risk) ∧
    (s = t1 → t1 < t2 → route_with_t1_t2 s t1 t2 = some Route.review) := by
  rw [route_with_t1_t2_eq]
  by_cases h1 : t2 ≤ s
  · rw [if_pos h1]
    exact ⟨⟨_, rfl⟩, iff_of_false (by decide) (not_lt.mpr (h.trans h1)),
      iff_of_false (by decide) (fun hc => absurd h1 (not_le.mpr hc.2)),
      iff_of_true rfl h1, fun _ => rfl,
      fun hs hlt => absurd (hs ▸ h1) (not_le.mpr hlt)⟩
  · rw [if_neg h1]
    by_cases h2 : t1 ≤ s ∧ s < t2
    · rw [if_pos h2]
      exact ⟨⟨_, rfl⟩, iff_of_false (by decide) (not_lt.mpr h2.1),
        iff_of_true rfl h2, iff_of_false (by decide) h1,
        fun hs => absurd le_rfl (hs ▸ h1), fun _ _ => rfl⟩
    · by_cases h3 : s < t1
      · rw [if_neg h2, if_pos h3]
        exact ⟨⟨_, rfl⟩, iff_of_true rfl h3, iff_of_false (by decide) h2,
          iff_of_false (by decide) h1, fun hs => absurd le_rfl (hs ▸ h1),
          fun hs _ => absurd (hs ▸ h3) (lt_irrefl t1)⟩
      · exact absurd ⟨not_lt.mp h3, not_le.mp h1⟩ h2

/-- Witness for `route_partition` at score 0.4, band (0.3, 0.6). -/
theorem route_partition_witness :
    (∃ r, route_with_t1_t2 (2/5) (3/10) (3/5) = some r) ∧
    (route_with_t1_t2 (2/5) (3/10) (3/5) = some Route.low_risk ↔ (2/5 : ℚ) < 3/10) ∧
    (route_with_t1_t2 (2/5) (3/10) (3/5) = some Route.review ↔
      (3/10 : ℚ) ≤ 2/5 ∧ (2/5 : ℚ) < 3/5) ∧
    (route_with_t1_t2 (2/5) (3/10) (3/5) = some Route.high_risk ↔ (3/5 : ℚ) ≤ 2/5) ∧
    ((2/5 : ℚ) = 3/5 → route_with_t1_t2 (2/5) (3/10) (3/5) = some Route.high_risk) ∧
    ((2/5 : ℚ) = 3/10 → (3/10 : ℚ) < 3/5 →
      route_with_t1_t2 (2/5) (3/10) (3/5) = some Route.review) :=
  route_partition (2/5) (3/10) (3/5) (by norm_num)

/-- Claim C4, counterexample to the claim as stated: with `t1 = t2 = 0.5` (an
allowed pair, `t1 ≤ t2`) a score equal to `t1` routes to `high_risk`, not to
`review` as the claim asserts for `score == t1`. -/
theorem route_t1_eq_t2_counterexample :
    route_with_t1_t2 (1/2) (1/2) (1/2) = some Route.high_risk ∧
    route_with_t1_t2 (1/2) (1/2) (1/2) ≠ some Route.review ∧
    ((1:ℚ)/2 ≤ 1/2) := by
  rw [route_with_t1_t2_eq, if_pos le_rfl]
  refine ⟨rfl, fun hc => Route.noConfusion (Option.some.inj hc), le_rfl⟩

/-- Claim C8: the band constructor returns `t1 = max(0, t - band_width)` and
`t2 = min(1, t + band_width)`; for `t ∈ [0,1]` and `band_width ≥ 0` these
satisfy `0 ≤ t1 ≤ t ≤ t2 ≤ 1`, and `t1 = t2 = t` forces `band_width = 0`
(and conversely). -/
theorem make_t1_t2_band (t band : ℚ) (h0 : 0 ≤ t) (h1 : t ≤ 1) (hb : 0 ≤ band) :
    (make_t1_t2 t band).1 = max 0 (t - band) ∧
    (make_t1_t2 t band).2 = min 1 (t + band) ∧
    0 ≤ (make_t1_t2 t band).1 ∧ (make_t1_t2 t band).1 ≤ t ∧
    t ≤ (make_t1_t2 t band).2 ∧ (make_t1_t2 t band).2 ≤ 1 ∧
    ((make_t1_t2 t band).1 = t ∧ (make_t1_t2 t band).2 = t → band = 0) ∧
    (band = 0 → (make_t1_t2 t band).1 = t ∧ (make_t1_t2 t band).2 = t) := by
  refine ⟨rfl, rfl, le_max_left _ _, max_le h0 (by linarith), le_min h1 (by linarith),
    min_le_left _ _, ?_, ?_⟩
  · rintro ⟨e1, e2⟩
    have e1h : max 0 (t - band) = t := e1
    have e2h : min 1 (t + band) = t := e2
    rcases le_total (t - band) 0 with hc | hc
    · rw [max_eq_left hc] at e1h
      rcases le_total 1 (t + band) with hd | hd
      · rw [min_eq_left hd] at e2h
        linarith
      · rw [min_eq_right hd] at e2h
        linarith
    · rw [max_eq_right hc] at e1h
      linarith
  · intro hbz
    constructor
    · show max 0 (t - band) = t
      rw [hbz, sub_zero]
      exact max_eq_right h0
    · show min 1 (t + band) = t
      rw [hbz, add_zero]
      exact min_eq_right h1

/-- Witness for `make_t1_t2_band` at `t = 0.5`, `band_width = 0.05`. -/
theorem make_t1_t2_band_witness :
    (make_t1_t2 (1/2) (1/20)).1 = max 0 (1/2 - 1/20) ∧
    (make_t1_t2 (1/2) (1/20)).2 = min 1 (1/2 + 1/20) ∧
    0 ≤ (make_t1_t2 (1/2) (1/20)).1 ∧ (make_t1_t2 (1/2) (1/20)).1 ≤ 1/2 ∧
    (1/2 : ℚ) ≤ (make_t1_t2 (1/2) (1/20)).2 ∧ (make_t1_t2 (1/2) (1/20)).2 ≤ 1 ∧
    ((make_t1_t2 (1/2) (1/20)).1 = 1/2 ∧ (make_t1_t2 (1/2) (1/20)).2 = 1/2 →
      (1/20 : ℚ) = 0) ∧
    ((1/20 : ℚ) = 0 →
      (make_t1_t2 (1/2) (1/20)).1 = 1/2 ∧ (make_t1_t2 (1/2) (1/20)).2 = 1/2) :=
  make_t1_t2_band (1/2) (1/20) (by norm_num) (by norm_num) (by norm_num)

section SelectorFacts

/-- Propositional reading of the lexicographic (fnr, t) sort key. -/
lemma lexLe_iff (a b : Row) :
    lexLe a b = true ↔ a.fnr < b.fnr ∨ (a.fnr = b.fnr ∧ a.t ≤ b.t) := by
  simp [lexLe]

lemma lexLe_refl (a : Row) : lexLe a a = true := by
  simp [lexLe]

lemma lexLe_trans {a b c : Row} (h1 : lexLe a b = true) (h2 : lexLe b c = true) :
    lexLe a c = true := by
  rw [lexLe_iff] at h1 h2 ⊢
  rcases h1 with h1 | ⟨h1e, h1t⟩
  · rcases h2 with h2 | ⟨h2e, h2t⟩
    · exact Or.inl (h1.trans h2)
    · exact Or.inl (lt_of_lt_of_eq h1 h2e)
  · rcases h2 with h2 | ⟨h2e, h2t⟩
    · exact Or.inl (lt_of_eq_of_lt h1e h2)
    · exact Or.inr ⟨h1e.trans h2e, h1t.trans h2t⟩

lemma lexLe_total (a b : Row) : lexLe a b = true ∨ lexLe b a = true := by
  rw [lexLe_iff, lexLe_iff]
  rcases lt_trichotomy a.fnr b.fnr with h | h | h
  · exact Or.inl (Or.inl h)
  · rcases le_total a.t b.t with ht | ht
    · exact Or.inl (Or.inr ⟨h, ht⟩)
    · exact Or.inr (Or.inr ⟨h.symm, ht⟩)
  · exact Or.inr (Or.inl h)

/-- The selected best row is a (fnr, t)-lexicographic minimum of the list. -/
lemma bestRow_spec : ∀ (l : List Row), l ≠ [] →
    ∃ b, bestRow l = some b ∧ b ∈ l ∧ ∀ x ∈ l, lexLe b x = true := by
  intro l
  induction l with
  | nil => intro h; exact absurd rfl h
  | cons r rs ih =>
    intro _
    rcases eq_or_ne rs [] with hrs | hrs
    · subst hrs
      refine ⟨r, rfl, List.mem_cons_self r [], ?_⟩
      intro x hx
      rcases List.mem_cons.mp hx with rfl | hx
      · exact lexLe_refl x
      · exact absurd hx (List.not_mem_nil x)
    · obtain ⟨b, hb, hmem, hall⟩ := ih hrs
      have hstep : bestRow (r :: rs) = if lexLe r b then some r else some b := by
        simp only [bestRow, hb]
      by_cases hc : lexLe r b = true
      · refine ⟨r, by rw [hstep, if_pos hc], List.mem_cons_self r rs, ?_⟩
        intro x hx
        rcases List.mem_cons.mp hx with rfl | hx
        · exact lexLe_refl x
        · exact lexLe_trans hc (hall x hx)
      · have hcb : lexLe b r = true := (lexLe_total r b).resolve_left hc
        refine ⟨b, by rw [hstep, if_neg hc], List.mem_cons_of_mem r hmem, ?_⟩
        intro x hx
        rcases List.mem_cons.mp hx with rfl | hx
        · exact hcb
        · exact hall x hx

lemma candidates_ne_nil {sweep_df : List Row} (h : sweep_df ≠ [])
    (precision_floor : Option ℚ) : candidates sweep_df precision_floor ≠ [] := by
  cases precision_floor with
  | none => exact h
  | some p =>
    by_cases he : (sweep_df.filter (fun r => decide (p ≤ r.precision))).isEmpty
    · simpa [candidates, he] using h
    · simp only [candidates, he, if_neg]
      simp only [List.isEmpty_iff] at he
      simpa using he

lemma candidates_subset (sweep_df : List Row) (precision_floor : Option ℚ) :
    candidates sweep_df precision_floor ⊆ sweep_df := by
  cases precision_floor with
  | none => exact fun x hx => hx
  | some p =>
    simp only [candidates]
    split
    · exact fun x hx => hx
    · exact fun x hx => (List.mem_filter.mp hx).1

end SelectorFacts

/-- Claim C2: on a non-empty sweep table, for any precision floor, the
selector returns the `t` of a candidate row whose fnr is minimal among the
candidate rows, and among candidate rows of equal minimal fnr it returns the
smallest threshold value (the candidate rows being the precision-filtered
sweep, or the full sweep on fallback).  Determinism is definitional:
`pick_threshold` is a pure function of (sweep, precision_floor). -/
theorem pick_threshold_min_fnr_tiebreak (sweep_df : List Row)
    (precision_floor : Option ℚ) (h : sweep_df ≠ []) :
    ∃ b ∈ candidates sweep_df precision_floor,
      pick_threshold sweep_df precision_floor = Except.ok b.t ∧
      (∀ x ∈ candidates sweep_df precision_floor, b.fnr ≤ x.fnr) ∧
      (∀ x ∈ candidates sweep_df precision_floor, x.fnr = b.fnr → b.t ≤ x.t) := by
  obtain ⟨b, hb, hmem, hall⟩ := bestRow_spec _ (candidates_ne_nil h precision_floor)
  refine ⟨b, hmem, by simp [pick_threshold, hb], ?_, ?_⟩
  · intro x hx
    rcases (lexLe_iff b x).mp (hall x hx) with hlt | ⟨he, _⟩
    · exact le_of_lt hlt
    · exact le_of_eq he
  · intro x hx he
    rcases (lexLe_iff b x).mp (hall x hx) with hlt | ⟨_, ht⟩
    · exact absurd he.symm (ne_of_lt hlt)
    · exact ht

/-- The synthetic sweep of the specification's tie-break test: two rows with
the same minimal fnr at `t = 0.3` and `t = 0.6`. -/
def tieSweep : List Row :=
  [mkRow (3/10) (1/10) (1/2), mkRow (3/5) (1/10) (1/2)]

/-- Witness for `pick_threshold_min_fnr_tiebreak`: on the tied sweep the
selector returns `0.3`, the smaller of the two tied thresholds. -/
theorem pick_threshold_min_fnr_tiebreak_witness :
    pick_threshold tieSweep none = Except.ok (3/10) ∧
    ∃ b ∈ candidates tieSweep none,
      pick_threshold tieSweep none = Except.ok b.t ∧
      (∀ x ∈ candidates tieSweep none, b.fnr ≤ x.fnr) ∧
      (∀ x ∈ candidates tieSweep none, x.fnr = b.fnr → b.t ≤ x.t) := by
  constructor
  · have hLe : lexLe (mkRow (3/10) (1/10) (1/2)) (mkRow (3/5) (1/10) (1/2)) = true := by
      rw [lexLe_iff]
      norm_num [mkRow]
    have hb : bestRow tieSweep = some (mkRow (3/10) (1/10) (1/2)) := by
      simp only [tieSweep, bestRow, hLe, if_true]
    simp only [pick_threshold, candidates, hb]
    rfl
  · exact pick_threshold_min_fnr_tiebreak tieSweep none (by simp [tieSweep])

lemma filter_precision_eq_nil {sweep_df : List Row} {pf : ℚ}
    (hfail : ∀ r ∈ sweep_df, r.precision < pf) :
    sweep_df.filter (fun r => decide (pf ≤ r.precision)) = [] := by
  rw [List.filter_eq_nil_iff]
  intro r hr
  simp only [decide_eq_true_eq]
  exact not_le.mpr (hfail r hr)

lemma candidates_of_unsat {sweep_df : List Row} {pf : ℚ}
    (hfail : ∀ r ∈ sweep_df, r.precision < pf) :
    candidates sweep_df (some pf) = sweep_df := by
  simp [candidates, filter_precision_eq_nil hfail]

/-- Claim C1 (amended): when no sweep row reaches the precision floor, the
selector falls back to the full unconstrained sweep and returns a threshold
of globally minimal fnr — but the fallback is silent: the return value is the
bare threshold, identical to the result of an unconstrained call, with no
flag recording that the constraint was relaxed. -/
theorem pick_threshold_relaxed_fallback (sweep_df : List Row) (pf : ℚ)
    (hfail : ∀ r ∈ sweep_df, r.precision < pf) (h : sweep_df ≠ []) :
    pick_threshold sweep_df (some pf) = pick_threshold sweep_df none ∧
    ∃ b ∈ sweep_df, pick_threshold sweep_df (some pf) = Except.ok b.t ∧
      ∀ x ∈ sweep_df, b.fnr ≤ x.fnr := by
  have hcand : candidates sweep_df (some pf) = sweep_df := candidates_of_unsat hfail
  constructor
  · simp only [pick_threshold]
    rw [hcand]
    simp only [candidates]
  · obtain ⟨b, hb, hmem, hall⟩ := bestRow_spec sweep_df h
    refine ⟨b, hmem, by simp [pick_threshold, hcand, hb], ?_⟩
    intro x hx
    rcases (lexLe_iff b x).mp (hall x hx) with hlt | ⟨he, _⟩
    · exact le_of_lt hlt
    · exact le_of_eq he

/-- A sweep on which `precision_floor = 0.95` is unsatisfiable (precisions
0.5 and 0.4); minimal fnr 0.1 at `t = 0.3`. -/
def sweepA : List Row :=
  [mkRow (3/10) (1/10) (1/2), mkRow (3/5) (1/5) (2/5)]

/-- The same thresholds and fnr values as `sweepA` but with precisions 0.96,
so `precision_floor = 0.95` is satisfied by every row. -/
def sweepB : List Row :=
  [mkRow (3/10) (1/10) (24/25), mkRow (3/5) (1/5) (24/25)]

/-- Witness for `pick_threshold_relaxed_fallback` on `sweepA` with the
unsatisfiable floor 0.95. -/
theorem pick_threshold_relaxed_fallback_witness :
    pick_threshold sweepA (some (19/20)) = pick_threshold sweepA none ∧
    ∃ b ∈ sweepA, pick_threshold sweepA (some (19/20)) = Except.ok b.t ∧
      ∀ x ∈ sweepA, b.fnr ≤ x.fnr :=
  pick_threshold_relaxed_fallback sweepA (19/20)
    (by
      intro r hr
      rcases List.mem_cons.mp hr with rfl | hr
      · norm_num [mkRow]
      · rcases List.mem_cons.mp hr with rfl | hr
        · norm_num [mkRow]
        · exact absurd hr (List.not_mem_nil r))
    (by simp [sweepA])

/-- Claim C1, counterexample to the claim as stated: the selector's output
carries no flag distinguishing a relaxed constraint from a satisfied one.  On
`sweepA` the floor 0.95 is unsatisfiable and the selector silently falls back,
on `sweepB` every row satisfies the floor — yet both calls return the
identical bare value `ok 0.3`, so no output field can record that the
constraint was relaxed rather than satisfied. -/
theorem pick_threshold_no_relaxation_flag :
    pick_threshold sweepA (some (19/20)) = Except.ok (3/10) ∧
    pick_threshold sweepB (some (19/20)) = Except.ok (3/10) ∧
    sweepA.all (fun r => decide (r.precision < 19/20)) = true ∧
    sweepB.all (fun r => decide (19/20 ≤ r.precision)) = true := by
  have hLeA : lexLe (mkRow (3/10) (1/10) (1/2)) (mkRow (3/5) (1/5) (2/5)) = true := by
    rw [lexLe_iff]
    norm_num [mkRow]
  have hLeB : lexLe (mkRow (3/10) (1/10) (24/25)) (mkRow (3/5) (1/5) (24/25)) = true := by
    rw [lexLe_iff]
    norm_num [mkRow]
  have hfA : List.filter (fun r => decide ((19:ℚ)/20 ≤ r.precision)) sweepA = [] := by
    rw [List.filter_eq_nil_iff]
    intro r hr
    rcases List.mem_cons.mp hr with rfl | hr
    · norm_num [mkRow]
    · rcases List.mem_cons.mp hr with rfl | hr
      · norm_num [mkRow]
      · exact absurd hr (List.not_mem_nil r)
  have hfB : List.filter (fun r => decide ((19:ℚ)/20 ≤ r.precision)) sweepB = sweepB := by
    rw [List.filter_eq_self]
    intro r hr
    rcases List.mem_cons.mp hr with rfl | hr
    · norm_num [mkRow]
    · rcases List.mem_cons.mp hr with rfl | hr
      · norm_num [mkRow]
      · exact absurd hr (List.not_mem_nil r)
  refine ⟨?_, ?_, ?_, ?_⟩
  · have hbA : bestRow sweepA = some (mkRow (3/10) (1/10) (1/2)) := by
      simp only [sweepA, bestRow, hLeA, if_true]
    simp only [pick_threshold, candidates, hfA, List.isEmpty_nil, if_true, hbA]
    rfl
  · have hbB : bestRow sweepB = some (mkRow (3/10) (1/10) (24/25)) := by
      simp only [sweepB, bestRow, hLeB, if_true]
    simp only [pick_threshold, candidates, hfB, ite_self, hbB]
    rfl
  · rw [List.all_eq_true]
    intro r hr
    rcases List.mem_cons.mp hr with rfl | hr
    · norm_num [mkRow]
    · rcases List.mem_cons.mp hr with rfl | hr
      · norm_num [mkRow]
      · exact absurd hr (List.not_mem_nil r)
  · rw [List.all_eq_true]
    intro r hr
    rcases List.mem_cons.mp hr with rfl | hr
    · norm_num [mkRow]
    · rcases List.mem_cons.mp hr with rfl | hr
      · norm_num [mkRow]
      · exact absurd hr (List.not_mem_nil r)

/-- Claim C9 (amended): on an empty sweep table the selector fails — the
positional row access `.iloc[0]` on an empty frame raises — and produces no
output value; the failure is a generic index error, not an `InvalidInput`
naming the violated precondition. -/
theorem pick_threshold_empty (precision_floor : Option ℚ) :
    pick_threshold [] precision_floor = Except.error PickErr.indexOutOfBounds := by
  cases precision_floor <;> rfl

/-- Predicate of the specified failure mode: an `InvalidInput` error carrying
some descriptive message. -/
def failsWithInvalidInput (res : Except PickErr ℚ) : Prop :=
  ∃ msg, res = Except.error (PickErr.invalidInput msg)

/-- Claim C9, counterexample to the claim as stated: applied to the empty
sweep (with the default-style floor 0.95) the selector does fail and produce
no partial output, but the error is the bare positional `IndexError` of
`.iloc[0]`, not an `InvalidInput` error carrying a message identifying the
failed precondition. -/
theorem pick_threshold_empty_counterexample :
    pick_threshold ([] : List Row) (some (19/20)) = Except.error PickErr.indexOutOfBounds ∧
    ¬ failsWithInvalidInput (pick_threshold ([] : List Row) (some (19/20))) := by
  refine ⟨rfl, ?_⟩
  rintro ⟨msg, hmsg⟩
  rw [show pick_threshold ([] : List Row) (some (19/20)) =
      Except.error PickErr.indexOutOfBounds from rfl] at hmsg
  exact PickErr.noConfusion (Except.error.inj hmsg)

/-- Claim C10: on any non-empty sweep table and any precision floor
(including none), the returned threshold is the `t` value of one of the
sweep's own rows — the selector never invents a threshold outside the
evaluated grid, with or without fallback. -/
theorem pick_threshold_in_sweep (sweep_df : List Row) (precision_floor : Option ℚ)
    (h : sweep_df ≠ []) :
    ∃ b ∈ sweep_df, pick_threshold sweep_df precision_floor = Except.ok b.t ∧
      b.t ∈ sweep_df.map Row.t := by
  obtain ⟨b, hb, hmem, _⟩ := bestRow_spec _ (candidates_ne_nil h precision_floor)
  exact ⟨b, candidates_subset _ _ hmem, by simp [pick_threshold, hb],
    List.mem_map_of_mem Row.t (candidates_subset _ _ hmem)⟩

/-- Witness for `pick_threshold_in_sweep` on `sweepA` with floor 0.95. -/
theorem pick_threshold_in_sweep_witness :
    ∃ b ∈ sweepA, pick_threshold sweepA (some (19/20)) = Except.ok b.t ∧
      b.t ∈ sweepA.map Row.t :=
  pick_threshold_in_sweep sweepA (some (19/20)) (by simp [sweepA])

section CountFacts

lemma metrics_tp (y_true : List Bool) (y_score : List ℚ) (t : ℚ) :
    (metrics_at_threshold y_true y_score t).tp = tpCount y_true y_score t := rfl

lemma metrics_fp (y_true : List Bool) (y_score : List ℚ) (t : ℚ) :
    (metrics_at_threshold y_true y_score t).fp = fpCount y_true y_score t := rfl

lemma metrics_tn (y_true : List Bool) (y_score : List ℚ) (t : ℚ) :
    (metrics_at_threshold y_true y_score t).tn = tnCount y_true y_score t := rfl

lemma metrics_fn (y_true : List Bool) (y_score : List ℚ) (t : ℚ) :
    (metrics_at_threshold y_true y_score t).fn = fnCount y_true y_score t := rfl

lemma metrics_precision (y_true : List Bool) (y_score : List ℚ) (t : ℚ) :
    (metrics_at_threshold y_true y_score t).precision =
      if tpCount y_true y_score t + fpCount y_true y_score t = 0 then 0
      else (tpCount y_true y_score t : ℚ) /
        ((tpCount y_true y_score t : ℚ) + (fpCount y_true y_score t : ℚ)) := rfl

lemma metrics_recall (y_true : List Bool) (y_score : List ℚ) (t : ℚ) :
    (metrics_at_threshold y_true y_score t).«recall» =
      if tpCount y_true y_score t + fnCount y_true y_score t = 0 then 0
      else (tpCount y_true y_score t : ℚ) /
        ((tpCount y_true y_score t : ℚ) + (fnCount y_true y_score t : ℚ)) := rfl

lemma metrics_fnr (y_true : List Bool) (y_score : List ℚ) (t : ℚ) :
    (metrics_at_threshold y_true y_score t).fnr =
      if tpCount y_true y_score t + fnCount y_true y_score t = 0 then 0
      else (fnCount y_true y_score t : ℚ) /
        ((tpCount y_true y_score t : ℚ) + (fnCount y_true y_score t : ℚ)) := rfl

lemma metrics_fpr (y_true : List Bool) (y_score : List ℚ) (t : ℚ) :
    (metrics_at_threshold y_true y_score t).fpr =
      if fpCount y_true y_score t + tnCount y_true y_score t = 0 then 0
      else (fpCount y_true y_score t : ℚ) /
        ((fpCount y_true y_score t : ℚ) + (tnCount y_true y_score t : ℚ)) := rfl

lemma metrics_f1 (y_true : List Bool) (y_score : List ℚ) (t : ℚ) :
    (metrics_at_threshold y_true y_score t).f1 =
      if (metrics_at_threshold y_true y_score t).precision
          + (metrics_at_threshold y_true y_score t).«recall» = 0 then 0
      else 2 * (metrics_at_threshold y_true y_score t).precision
          * (metrics_at_threshold y_true y_score t).«recall»
          / ((metrics_at_threshold y_true y_score t).precision
            + (metrics_at_threshold y_true y_score t).«recall») := rfl

lemma count_tp_add_fp (l : List (ℚ × Bool)) (t : ℚ) :
    l.countP (fun p => decide (t ≤ p.1) && p.2)
      + l.countP (fun p => decide (t ≤ p.1) && !p.2)
      = l.countP (fun p => decide (t ≤ p.1)) := by
  induction l with
  | nil => rfl
  | cons a l ih =>
    cases hd : decide (t ≤ a.1) <;> cases hb : a.2 <;>
      simp [List.countP_cons, hd, hb] <;> omega

lemma count_tp_add_fn (l : List (ℚ × Bool)) (t : ℚ) :
    l.countP (fun p => decide (t ≤ p.1) && p.2)
      + l.countP (fun p => !decide (t ≤ p.1) && p.2)
      = l.countP (fun p => p.2) := by
  induction l with
  | nil => rfl
  | cons a l ih =>
    cases hd : decide (t ≤ a.1) <;> cases hb : a.2 <;>
      simp [List.countP_cons, hd, hb] <;> omega

lemma count_all_four (l : List (ℚ × Bool)) (t : ℚ) :
    l.countP (fun p => decide (t ≤ p.1) && p.2)
      + l.countP (fun p => decide (t ≤ p.1) && !p.2)
      + l.countP (fun p => !decide (t ≤ p.1) && !p.2)
      + l.countP (fun p => !decide (t ≤ p.1) && p.2)
      = l.length := by
  induction l with
  | nil => rfl
  | cons a l ih =>
    cases hd : decide (t ≤ a.1) <;> cases hb : a.2 <;>
      simp [List.countP_cons, hd, hb] <;> omega

lemma countP_zip_fst (y_true : List Bool) (y_score : List ℚ)
    (hlen : y_true.length = y_score.length) (q : ℚ → Bool) :
    (y_score.zip y_true).countP (fun p => q p.1) = y_score.countP q := by
  induction y_true generalizing y_score with
  | nil =>
    cases y_score with
    | nil => rfl
    | cons s ss => simp at hlen
  | cons b bs ih =>
    cases y_score with
    | nil => simp at hlen
    | cons s ss =>
      simp only [List.zip_cons_cons, List.countP_cons]
      rw [ih ss (by simpa using hlen)]

lemma countP_zip_snd (y_true : List Bool) (y_score : List ℚ)
    (hlen : y_true.length = y_score.length) :
    (y_score.zip y_true).countP (fun p => p.2) = y_true.countP (fun b => b) := by
  induction y_true generalizing y_score with
  | nil =>
    cases y_score with
    | nil => rfl
    | cons s ss => simp at hlen
  | cons b bs ih =>
    cases y_score with
    | nil => simp at hlen
    | cons s ss =>
      simp only [List.zip_cons_cons, List.countP_cons]
      rw [ih ss (by simpa using hlen)]

lemma tp_add_fn_eq (y_true : List Bool) (y_score : List ℚ) (t : ℚ) :
    tpCount y_true y_score t + fnCount y_true y_score t
      = (y_score.zip y_true).countP (fun p => p.2) :=
  count_tp_add_fn (y_score.zip y_true) t

lemma tpCount_antitone (y_true : List Bool) (y_score : List ℚ) {t tt : ℚ}
    (h : t ≤ tt) : tpCount y_true y_score tt ≤ tpCount y_true y_score t := by
  apply List.countP_mono_left
  intro x _ hx
  simp only [Bool.and_eq_true, decide_eq_true_eq] at hx ⊢
  exact ⟨h.trans hx.1, hx.2⟩

end CountFacts

/-- Claim C6: for equal-length labels and scores the evaluator predicts
positive exactly on `score >= t` (the predicted-positive count `tp + fp`
equals the count of scores at or above the threshold, so a case exactly at
threshold counts as positive), and the four confusion counts always sum to
the dataset size. -/
theorem metrics_counts (y_true : List Bool) (y_score : List ℚ) (t : ℚ)
    (hlen : y_true.length = y_score.length) (hN : 1 ≤ y_true.length) :
    (metrics_at_threshold y_true y_score t).tp + (metrics_at_threshold y_true y_score t).fp
      = y_score.countP (fun s => decide (t ≤ s)) ∧
    (metrics_at_threshold y_true y_score t).tp + (metrics_at_threshold y_true y_score t).fp
      + (metrics_at_threshold y_true y_score t).tn + (metrics_at_threshold y_true y_score t).fn
      = y_true.length := by
  rw [metrics_tp, metrics_fp, metrics_tn, metrics_fn]
  constructor
  · rw [tpCount, fpCount, count_tp_add_fp]
    exact countP_zip_fst y_true y_score hlen (fun s => decide (t ≤ s))
  · rw [tpCount, fpCount, tnCount, fnCount, count_all_four, List.length_zip, hlen,
      Nat.min_self]

/-- Witness for `metrics_counts`: labels `[1, 0]`, scores `[0.5, 0.25]`,
threshold `0.5` — the score exactly at threshold is counted positive
(`tp + fp = 1`) and the counts sum to 2. -/
theorem metrics_counts_witness :
    (metrics_at_threshold [true, false] [1/2, 1/4] (1/2)).tp
        + (metrics_at_threshold [true, false] [1/2, 1/4] (1/2)).fp
      = List.countP (fun s => decide ((1:ℚ)/2 ≤ s)) [1/2, 1/4] ∧
    (metrics_at_threshold [true, false] [1/2, 1/4] (1/2)).tp
        + (metrics_at_threshold [true, false] [1/2, 1/4] (1/2)).fp
        + (metrics_at_threshold [true, false] [1/2, 1/4] (1/2)).tn
        + (metrics_at_threshold [true, false] [1/2, 1/4] (1/2)).fn
      = ([true, false] : List Bool).length :=
  metrics_counts [true, false] [1/2, 1/4] (1/2) rfl (by norm_num)

section RatioFacts

/-- Bounds for a guarded ratio whose numerator is the first count. -/
lemma guarded_ratio_left_bounds (x y : ℕ) :
    0 ≤ (if x + y = 0 then (0:ℚ) else (x:ℚ) / ((x:ℚ) + (y:ℚ))) ∧
    (if x + y = 0 then (0:ℚ) else (x:ℚ) / ((x:ℚ) + (y:ℚ))) ≤ 1 := by
  split_ifs with h
  · norm_num
  · have hpos : (0:ℚ) < (x:ℚ) + (y:ℚ) := by
      have hx : 0 < x + y := Nat.pos_of_ne_zero h
      exact_mod_cast Nat.cast_pos.mpr hx
    constructor
    · positivity
    · rw [div_le_one hpos]
      have : (0:ℚ) ≤ (y:ℚ) := Nat.cast_nonneg y
      linarith

/-- Bounds for a guarded ratio whose numerator is the second count. -/
lemma guarded_ratio_right_bounds (x y : ℕ) :
    0 ≤ (if x + y = 0 then (0:ℚ) else (y:ℚ) / ((x:ℚ) + (y:ℚ))) ∧
    (if x + y = 0 then (0:ℚ) else (y:ℚ) / ((x:ℚ) + (y:ℚ))) ≤ 1 := by
  split_ifs with h
  · norm_num
  · have hpos : (0:ℚ) < (x:ℚ) + (y:ℚ) := by
      have hx : 0 < x + y := Nat.pos_of_ne_zero h
      exact_mod_cast Nat.cast_pos.mpr hx
    constructor
    · positivity
    · rw [div_le_one hpos]
      have : (0:ℚ) ≤ (x:ℚ) := Nat.cast_nonneg x
      linarith

/-- Bounds for the guarded harmonic mean given bounded inputs. -/
lemma guarded_f1_bounds {p r : ℚ} (hp0 : 0 ≤ p) (hp1 : p ≤ 1) (hr0 : 0 ≤ r)
    (hr1 : r ≤ 1) :
    0 ≤ (if p + r = 0 then (0:ℚ) else 2 * p * r / (p + r)) ∧
    (if p + r = 0 then (0:ℚ) else 2 * p * r / (p + r)) ≤ 1 := by
  split_ifs with h
  · norm_num
  · have hpos : (0:ℚ) < p + r := lt_of_le_of_ne (by linarith) (Ne.symm h)
    constructor
    · positivity
    · rw [div_le_one hpos]
      nlinarith

end RatioFacts

/-- Claim C5: every derived ratio of `metrics_at_threshold` lies in `[0, 1]`;
every ratio whose denominator is zero is exactly `0` (the guarded-ratio
policy, no exception and no undefined value in the exact-rational embedding);
and `fnr = 1 - recall` exactly whenever `tp + fn > 0`, while `fnr = 0` when
`tp + fn = 0`. -/
theorem metrics_ratios (y_true : List Bool) (y_score : List ℚ) (t : ℚ) :
    (0 ≤ (metrics_at_threshold y_true y_score t).precision ∧
      (metrics_at_threshold y_true y_score t).precision ≤ 1) ∧
    (0 ≤ (metrics_at_threshold y_true y_score t).«recall» ∧
      (metrics_at_threshold y_true y_score t).«recall» ≤ 1) ∧
    (0 ≤ (metrics_at_threshold y_true y_score t).fpr ∧
      (metrics_at_threshold y_true y_score t).fpr ≤ 1) ∧
    (0 ≤ (metrics_at_threshold y_true y_score t).fnr ∧
      (metrics_at_threshold y_true y_score t).fnr ≤ 1) ∧
    (0 ≤ (metrics_at_threshold y_true y_score t).f1 ∧
      (metrics_at_threshold y_true y_score t).f1 ≤ 1) ∧
    ((metrics_at_threshold y_true y_score t).tp
        + (metrics_at_threshold y_true y_score t).fp = 0 →
      (metrics_at_threshold y_true y_score t).precision = 0) ∧
    ((metrics_at_threshold y_true y_score t).tp
        + (metrics_at_threshold y_true y_score t).fn = 0 →
      (metrics_at_threshold y_true y_score t).«recall» = 0 ∧
      (metrics_at_threshold y_true y_score t).fnr = 0) ∧
    ((metrics_at_threshold y_true y_score t).fp
        + (metrics_at_threshold y_true y_score t).tn = 0 →
      (metrics_at_threshold y_true y_score t).fpr = 0) ∧
    ((metrics_at_threshold y_true y_score t).precision
        + (metrics_at_threshold y_true y_score t).«recall» = 0 →
      (metrics_at_threshold y_true y_score t).f1 = 0) ∧
    (0 < (metrics_at_threshold y_true y_score t).tp
        + (metrics_at_threshold y_true y_score t).fn →
      (metrics_at_threshold y_true y_score t).fnr
        = 1 - (metrics_at_threshold y_true y_score t).«recall») := by
  have hp : 0 ≤ (metrics_at_threshold y_true y_score t).precision ∧
      (metrics_at_threshold y_true y_score t).precision ≤ 1 := by
    rw [metrics_precision]
    exact guarded_ratio_left_bounds _ _
  have hr : 0 ≤ (metrics_at_threshold y_true y_score t).«recall» ∧
      (metrics_at_threshold y_true y_score t).«recall» ≤ 1 := by
    rw [metrics_recall]
    exact guarded_ratio_left_bounds _ _
  refine ⟨hp, hr, ?_, ?_, ?_, ?_, ?_, ?_, ?_, ?_⟩
  · rw [metrics_fpr]
    exact guarded_ratio_left_bounds _ _
  · rw [metrics_fnr]
    exact guarded_ratio_right_bounds _ _
  · rw [metrics_f1]
    exact guarded_f1_bounds hp.1 hp.2 hr.1 hr.2
  · intro h
    rw [metrics_tp, metrics_fp] at h
    rw [metrics_precision, if_pos h]
  · intro h
    rw [metrics_tp, metrics_fn] at h
    exact ⟨by rw [metrics_recall, if_pos h], by rw [metrics_fnr, if_pos h]⟩
  · intro h
    rw [metrics_fp, metrics_tn] at h
    rw [metrics_fpr, if_pos h]
  · intro h
    rw [metrics_f1, if_pos h]
  · intro h
    rw [metrics_tp, metrics_fn] at h
    have hne : tpCount y_true y_score t + fnCount y_true y_score t ≠ 0 :=
      Nat.pos_iff_ne_zero.mp h
    have hposq : (0:ℚ) < (tpCount y_true y_score t : ℚ) + (fnCount y_true y_score t : ℚ) := by
      have := Nat.cast_pos (α := ℚ) |>.mpr h
      push_cast at this
      linarith
    rw [metrics_fnr, metrics_recall, if_neg hne, if_neg hne]
    field_simp

/-- Witness for `metrics_ratios`: with labels `[1, 1, 0]`, scores `[1, 0, 1]`,
threshold `1`, we get `tp = 1`, `fn = 1 > 0`, and indeed
`fnr = 1/2 = 1 - recall`. -/
theorem metrics_ratios_witness :
    0 < (metrics_at_threshold [true, true, false] [1, 0, 1] 1).tp
        + (metrics_at_threshold [true, true, false] [1, 0, 1] 1).fn ∧
    (metrics_at_threshold [true, true, false] [1, 0, 1] 1).fnr
      = 1 - (metrics_at_threshold [true, true, false] [1, 0, 1] 1).«recall» :=
  ⟨by decide,
   (metrics_ratios [true, true, false] [1, 0, 1] 1).2.2.2.2.2.2.2.2.2 (by decide)⟩

section GridFacts

lemma roundHalfEven_le (q : ℚ) : (roundHalfEven q : ℚ) ≤ q + 1/2 := by
  have h1 : ((⌊q⌋ : ℤ) : ℚ) ≤ q := Int.floor_le q
  have h2 : q < ((⌊q⌋ : ℤ) : ℚ) + 1 := Int.lt_floor_add_one q
  unfold roundHalfEven
  split_ifs with ha hb hc
  · push_cast
    linarith
  · push_cast
    linarith
  · push_cast
    push_neg at ha
    linarith
  · push_cast
    push_neg at ha
    linarith

lemma le_roundHalfEven (q : ℚ) : q - 1/2 ≤ (roundHalfEven q : ℚ) := by
  have h1 : ((⌊q⌋ : ℤ) : ℚ) ≤ q := Int.floor_le q
  have h2 : q < ((⌊q⌋ : ℤ) : ℚ) + 1 := Int.lt_floor_add_one q
  unfold roundHalfEven
  split_ifs with ha hb hc
  · push_cast
    linarith
  · push_cast
    linarith
  · push_cast
    linarith
  · push_cast
    linarith

lemma roundHalfEven_mono {x y : ℚ} (h : x ≤ y) :
    roundHalfEven x ≤ roundHalfEven y := by
  by_contra hlt
  push_neg at hlt
  have h1 : roundHalfEven y + 1 ≤ roundHalfEven x := hlt
  have h2 : ((roundHalfEven y : ℤ) : ℚ) + 1 ≤ ((roundHalfEven x : ℤ) : ℚ) := by
    exact_mod_cast h1
  have h3 := roundHalfEven_le x
  have h4 := le_roundHalfEven y
  have hxy : x = y := le_antisymm h (by linarith)
  rw [hxy] at hlt
  exact lt_irrefl _ hlt

lemma round2_mono {x y : ℚ} (h : x ≤ y) : round2 x ≤ round2 y := by
  unfold round2
  have h1 : roundHalfEven (x * 100) ≤ roundHalfEven (y * 100) :=
    roundHalfEven_mono (mul_le_mul_of_nonneg_right h (by norm_num))
  have h2 : ((roundHalfEven (x * 100) : ℤ) : ℚ) ≤ ((roundHalfEven (y * 100) : ℤ) : ℚ) := by
    exact_mod_cast h1
  gcongr

lemma tp_add_fn_const (y_true : List Bool) (y_score : List ℚ) (t tt : ℚ) :
    tpCount y_true y_score t + fnCount y_true y_score t
      = tpCount y_true y_score tt + fnCount y_true y_score tt := by
  rw [tp_add_fn_eq, tp_add_fn_eq]

/-- Recall is antitone in the threshold: raising the threshold can only lower
(or keep) the recall, because tp shrinks while tp + fn is fixed. -/
lemma recall_antitone (y_true : List Bool) (y_score : List ℚ) {t tt : ℚ}
    (h : t ≤ tt) :
    (metrics_at_threshold y_true y_score tt).«recall»
      ≤ (metrics_at_threshold y_true y_score t).«recall» := by
  have hconst := tp_add_fn_const y_true y_score t tt
  have htp := tpCount_antitone y_true y_score h
  rw [metrics_recall, metrics_recall]
  by_cases hz : tpCount y_true y_score t + fnCount y_true y_score t = 0
  · rw [if_pos hz, if_pos (by omega)]
  · have hz' : tpCount y_true y_score tt + fnCount y_true y_score tt ≠ 0 := by omega
    rw [if_neg hz, if_neg hz']
    have hd : (0:ℚ) < (tpCount y_true y_score t : ℚ) + (fnCount y_true y_score t : ℚ) := by
      have : 0 < tpCount y_true y_score t + fnCount y_true y_score t :=
        Nat.pos_of_ne_zero hz
      push_cast
      exact_mod_cast this
    have hd' : (0:ℚ) < (tpCount y_true y_score tt : ℚ) + (fnCount y_true y_score tt : ℚ) := by
      have : 0 < tpCount y_true y_score tt + fnCount y_true y_score tt :=
        Nat.pos_of_ne_zero hz'
      push_cast
      exact_mod_cast this
    rw [div_le_div_iff hd' hd]
    have e : (tpCount y_true y_score tt : ℚ) + (fnCount y_true y_score tt : ℚ)
        = (tpCount y_true y_score t : ℚ) + (fnCount y_true y_score t : ℚ) := by
      exact_mod_cast hconst.symm
    rw [e]
    have htpq : (tpCount y_true y_score tt : ℚ) ≤ (tpCount y_true y_score t : ℚ) := by
      exact_mod_cast htp
    nlinarith

lemma thresholds_length (step : ℚ) : (thresholds step).length = gridSize step := by
  simp [thresholds, gridRaw]

lemma thresholds_get (step : ℚ) (i : ℕ) (hi : i < (thresholds step).length) :
    (thresholds step).get ⟨i, hi⟩ = round2 (((i:ℚ) + 1) * step) := by
  simp [thresholds, gridRaw, List.get_eq_getElem]

end GridFacts

/-- Claim C7: across the rows of a sweep taken in output (ascending-grid)
order, recall is non-increasing, and `tp + fn` is the same in every row,
equal to the number of positive labels in the dataset. -/
theorem sweep_recall_antitone_tp_fn_invariant (y_true : List Bool) (y_score : List ℚ)
    (step : ℚ) (hstep : 0 < step) (hlen : y_true.length = y_score.length)
    (i j : ℕ) (hi : i < (threshold_sweep y_true y_score step).length)
    (hj : j < (threshold_sweep y_true y_score step).length) (hij : i ≤ j) :
    ((threshold_sweep y_true y_score step).get ⟨j, hj⟩).«recall»
      ≤ ((threshold_sweep y_true y_score step).get ⟨i, hi⟩).«recall» ∧
    ∀ r ∈ threshold_sweep y_true y_score step,
      r.tp + r.fn = y_true.countP (fun b => b) := by
  constructor
  · have hi' : i < (thresholds step).length := by
      simpa [threshold_sweep] using hi
    have hj' : j < (thresholds step).length := by
      simpa [threshold_sweep] using hj
    have hrow : ∀ (k : ℕ) (hk : k < (threshold_sweep y_true y_score step).length)
        (hk' : k < (thresholds step).length),
        (threshold_sweep y_true y_score step).get ⟨k, hk⟩
          = metrics_at_threshold y_true y_score ((thresholds step).get ⟨k, hk'⟩) := by
      intro k hk hk'
      simp [threshold_sweep, List.get_eq_getElem]
    rw [hrow i hi hi', hrow j hj hj', thresholds_get, thresholds_get]
    apply recall_antitone
    apply round2_mono
    have : ((i:ℚ) + 1) ≤ ((j:ℚ) + 1) := by
      have : (i:ℚ) ≤ (j:ℚ) := by exact_mod_cast hij
      linarith
    exact mul_le_mul_of_nonneg_right this (le_of_lt hstep)
  · intro r hr
    obtain ⟨tt, _, rfl⟩ := List.mem_map.mp hr
    rw [metrics_tp, metrics_fn, tp_add_fn_eq]
    exact countP_zip_snd y_true y_score hlen

/-- Witness for `sweep_recall_antitone_tp_fn_invariant`: labels `[1, 0]`,
scores `[0.6, 0.3]`, `step = 0.25` (grid 0.25, 0.5, 0.75) — recall at the
second grid row is at most recall at the first, and row 0 has `tp + fn = 1`,
the number of positive labels. -/
theorem sweep_recall_antitone_witness :
    ((threshold_sweep [true, false] [3/5, 3/10] (1/4)).getD 1 (mkRow 0 0 0)).«recall»
      ≤ ((threshold_sweep [true, false] [3/5, 3/10] (1/4)).getD 0 (mkRow 0 0 0)).«recall» ∧
    ((threshold_sweep [true, false] [3/5, 3/10] (1/4)).getD 0 (mkRow 0 0 0)).tp
      + ((threshold_sweep [true, false] [3/5, 3/10] (1/4)).getD 0 (mkRow 0 0 0)).fn
      = 1 := by
  have hgs : gridSize (1/4) = 3 := by
    simp only [gridSize]
    norm_num
    rfl
  have hlen3 : (threshold_sweep [true, false] [3/5, 3/10] (1/4)).length = 3 := by
    simp only [threshold_sweep, List.length_map, thresholds_length, hgs]
  have h := sweep_recall_antitone_tp_fn_invariant [true, false] [3/5, 3/10] (1/4)
    (by norm_num) rfl 0 1 (by omega) (by omega) (by omega)
  constructor
  · have h1 := h.1
    rw [List.getD_eq_getElem _ _ (by omega), List.getD_eq_getElem _ _ (by omega)]
    simpa [List.get_eq_getElem] using h1
  · rw [List.getD_eq_getElem _ _ (by omega)]
    have hmem : (threshold_sweep [true, false] [3/5, 3/10] (1/4))[0] ∈
        threshold_sweep [true, false] [3/5, 3/10] (1/4) :=
      List.getElem_mem (by omega)
    rw [h.2 _ hmem]
    rfl

section GridRounding

lemma roundHalfEven_intCast (n : ℤ) : roundHalfEven (n : ℚ) = n := by
  simp only [roundHalfEven, Int.floor_intCast, sub_self]
  norm_num

lemma round2_hundredth (n : ℤ) : round2 ((n:ℚ)/100) = (n:ℚ)/100 := by
  rw [round2, show ((n:ℚ)/100)*100 = (n:ℚ) by field_simp, roundHalfEven_intCast]

lemma gridRaw_lt_one {step : ℚ} (hstep : 0 < step) :
    ∀ x ∈ gridRaw step, x < 1 := by
  intro x hx
  obtain ⟨k, hk, rfl⟩ := List.mem_map.mp hx
  have hk' : k < gridSize step := List.mem_range.mp hk
  have h1 : (k:ℤ) < ⌈(1 - step)/step⌉ := Int.lt_toNat.mp hk'
  have h2 : (k:ℚ) < (1 - step)/step := by
    have h3 : ((k:ℤ):ℚ) + 1 ≤ ((⌈(1 - step)/step⌉ : ℤ) : ℚ) := by exact_mod_cast h1
    have h4 := Int.ceil_lt_add_one ((1 - step)/step)
    push_cast at h3
    linarith
  have h5 : (k:ℚ) * step < 1 - step := (lt_div_iff hstep).mp h2
  have h6 : ((k:ℚ) + 1) * step = (k:ℚ) * step + step := by ring
  rw [h6]
  linarith

end GridRounding

/-- Claim C3 (amended): the sweep grid is the arithmetic sequence
`step, 2*step, ...` strictly below `1.0` with every point rounded to **two**
decimal places — not to the decimal precision of `step` — so for any `step`
that is a positive integer multiple of `0.01` the rounding is the identity
and the grid is strictly increasing and excludes `0.0` and `1.0`. -/
theorem thresholds_hundredth_grid (m : ℕ) (hm : 0 < m) :
    thresholds ((m:ℚ)/100) = gridRaw ((m:ℚ)/100) ∧
    List.Pairwise (fun a b => a < b) (thresholds ((m:ℚ)/100)) ∧
    ∀ x ∈ thresholds ((m:ℚ)/100), 0 < x ∧ x < 1 := by
  have hstep : (0:ℚ) < (m:ℚ)/100 := by
    have : (0:ℚ) < (m:ℚ) := by exact_mod_cast hm
    positivity
  have hfix : ∀ x ∈ gridRaw ((m:ℚ)/100), round2 x = x := by
    intro x hx
    obtain ⟨k, hk, rfl⟩ := List.mem_map.mp hx
    have he : ((k:ℚ) + 1) * ((m:ℚ)/100) = ((((k:ℤ)+1) * (m:ℤ) : ℤ) : ℚ) / 100 := by
      push_cast
      ring
    rw [he, round2_hundredth]
  have h1 : thresholds ((m:ℚ)/100) = gridRaw ((m:ℚ)/100) := by
    rw [thresholds]
    conv_rhs => rw [← List.map_id (gridRaw ((m:ℚ)/100))]
    exact List.map_congr_left (fun x hx => hfix x hx)
  refine ⟨h1, ?_, ?_⟩
  · rw [h1, gridRaw]
    refine List.Pairwise.map _ ?_ (List.pairwise_lt_range _)
    intro a b hab
    have hcast : ((a:ℚ) + 1) < ((b:ℚ) + 1) := by
      have : (a:ℚ) < (b:ℚ) := by exact_mod_cast hab
      linarith
    exact mul_lt_mul_of_pos_right hcast hstep
  · intro x hx
    rw [h1] at hx
    refine ⟨?_, gridRaw_lt_one hstep x hx⟩
    obtain ⟨k, hk, rfl⟩ := List.mem_map.mp hx
    have hk1 : (0:ℚ) < (k:ℚ) + 1 := by positivity
    exact mul_pos hk1 hstep

/-- Witness for `thresholds_hundredth_grid` at the default step `0.05`. -/
theorem thresholds_hundredth_grid_witness :
    thresholds (((5:ℕ):ℚ)/100) = gridRaw (((5:ℕ):ℚ)/100) ∧
    List.Pairwise (fun a b => a < b) (thresholds (((5:ℕ):ℚ)/100)) ∧
    ∀ x ∈ thresholds (((5:ℕ):ℚ)/100), 0 < x ∧ x < 1 :=
  thresholds_hundredth_grid 5 (by norm_num)

/-- Claim C3, counterexample to the claim as stated: for `step = 1/250 = 0.004`
(three significant decimals) the code rounds each grid point to two decimals,
so the very first grid point `0.004` becomes `0.0` — the grid contains `0.0`,
the point is not `step` rounded at `step`'s own precision, and the grid is
not strictly increasing. -/
theorem thresholds_rounding_counterexample :
    (0:ℚ) < 1/250 ∧ (thresholds (1/250)).head? = some 0 := by
  constructor
  · norm_num
  · have hgs : gridSize (1/250) = 249 := by
      simp only [gridSize]
      norm_num
      rfl
    rw [thresholds, gridRaw, hgs, show (249:ℕ) = 248 + 1 from rfl,
      List.range_succ_eq_map]
    simp only [List.map_cons, List.head?_cons, Nat.cast_zero]
    rw [show ((0:ℚ) + 1) * (1/250) = 1/250 by norm_num]
    have hr : round2 (1/250) = 0 := by
      rw [round2, show ((1:ℚ)/250) * 100 = 2/5 by norm_num]
      have hrhe : roundHalfEven ((2:ℚ)/5) = 0 := by
        have hfl : ⌊(2/5 : ℚ)⌋ = 0 := by norm_num
        simp only [roundHalfEven, hfl]
        norm_num
      rw [hrhe]
      norm_num
    rw [hr]

end ThresholdLoop
